import Mathlib

/-!
# Verification of the k8sutils reconciliation engine

A shallow embedding of the `linlanniao/k8sutils` repository: the kbatch
alpha/v2 task orchestrator (`kbatch/alpha/v2/`), the generic reconciliation
controller (`controller/controller.go`), and their supporting types.
Go maps from string to string become association lists, pointer-typed
optional fields become `Option`, fallible Go functions returning
`(T, error)` become `Except String T`, and the cluster API (an external
collaborator per the specification) becomes explicit state passing over a
`Cluster` record that keeps a creation/deletion log.
-/

namespace K8sUtils

/-! ## String maps

Go `map[string]string` values are modelled as association lists without
duplicate keys; `smapInsert` mirrors `m[k] = v` (replace or append) and
`smapDelete` mirrors `delete(m, k)`.  A `nil` Go map and an empty map are
both represented by `[]`: the code under verification only reads maps,
inserts into them, and tests `len(m) > 0`, and those operations do not
distinguish the two. -/

abbrev Smap := List (String × String)

def smapGet (m : Smap) (k : String) : Option String :=
  match m with
  | [] => none
  | (k', v) :: rest => if k' = k then some v else smapGet rest k

def smapInsert (m : Smap) (k v : String) : Smap :=
  match m with
  | [] => [(k, v)]
  | (k', v') :: rest =>
      if k' = k then (k, v) :: rest else (k', v') :: smapInsert rest k v

def smapDelete (m : Smap) (k : String) : Smap :=
  match m with
  | [] => []
  | (k', v') :: rest =>
      if k' = k then smapDelete rest k else (k', v') :: smapDelete rest k

/-- Model of `for k, v := range src { dst[k] = v }`, as used by `Task.SetLabels` and
`Task.SetAnnotations`. -/
def smapMerge (dst src : Smap) : Smap :=
  src.foldl (fun acc kv => smapInsert acc kv.1 kv.2) dst

/-- Model of `labels ⊆ obj.labels` as evaluated by a Kubernetes equality label
selector: every required pair is present. -/
def smapSub (req m : Smap) : Bool :=
  req.all (fun kv => smapGet m kv.1 == some kv.2)

/-! ## Data model (kbatch/alpha/v2)

Field-for-field translations of the v2 structs.  Kubernetes `metav1.Time`
values become `Int` (an opaque instant; `0` is the zero value), numeric
status counters (`int32`) become `Int`, and `*corev1.Affinity` — explicitly
a black-box builder input in the specification — becomes an opaque
`Option String` payload. -/

/-- Model of `Parameter` (kbatch/alpha/v2/parameter.go). -/
structure Parameter where
  key : String
  value : String
  deriving Repr, DecidableEq

/-- Model of `ScriptSpec` (kbatch/alpha/v2/script.go).  `Executor` is a string type
in Go (`ScriptExecutor`); kept as `String` with the three valid constants
below. -/
structure ScriptSpec where
  content : String
  executor : String
  deriving Repr, DecidableEq

def scriptExecutorSh : String := "sh"
def scriptExecutorBash : String := "bash"
def scriptExecutorPython : String := "python"

def taskPrivilegeHostRoot : String := "HostRoot"
def taskPrivilegeClusterRoot : String := "ClusterRoot"

/-- Model of `TaskSpec` (kbatch/alpha/v2/task.go).  Pointer-typed optional fields are
`Option`; `Parameters` (a slice of `*Parameter`) is a list. -/
structure TaskSpec where
  scriptSpec : ScriptSpec
  image : String
  privilege : Option String
  parameters : Option (List Parameter)
  activeDeadlineSeconds : Option Int
  backoffLimit : Option Int
  ttlSecondsAfterFinished : Option Int
  nodeSelector : Smap
  affinity : Option String
  deriving Repr, DecidableEq

/-- Model of `TaskCondition` (kbatch/alpha/v2/task.go). -/
structure TaskCondition where
  type_ : String
  status : String
  lastProbeTime : Int
  lastTransitionTime : Int
  reason : String
  message : String
  deriving Repr, DecidableEq

def taskComplete : String := "Complete"
def taskFailed : String := "Failed"

/-- Model of `batchv1.JobCondition`, restricted to the fields `Job2Task` reads. -/
structure JobCondition where
  type_ : String
  status : String
  lastProbeTime : Int
  lastTransitionTime : Int
  reason : String
  message : String
  deriving Repr, DecidableEq

/-- Model of `batchv1.JobStatus`, restricted to the fields the manager reads:
`Active`, `Succeeded`, `Failed` counters and the `Conditions` list. -/
structure JobStatus where
  active : Int
  succeeded : Int
  failed : Int
  conditions : List JobCondition
  deriving Repr, DecidableEq

def JobStatus.zero : JobStatus := ⟨0, 0, 0, []⟩

/-- Model of `corev1.ConfigMap`, restricted to metadata and `Data`. -/
structure ConfigMap where
  name : String
  ns : String
  labels : Smap
  annotations : Smap
  data : Smap
  deriving Repr, DecidableEq

/-- Model of `batchv1.Job`: metadata, the pod-template metadata, and the spec knobs
the v2 job builder sets.  Container/volume templating details are the
builder's black-box output per the specification; the fields kept here are
exactly those the claims and the manager inspect. -/
structure Job where
  name : String
  ns : String
  labels : Smap
  annotations : Smap
  templateLabels : Smap
  templateAnnotations : Smap
  image : String
  serviceAccountName : String
  hostNetwork : Bool
  hostPID : Bool
  command : List String
  args : List String
  nodeSelector : Smap
  affinity : Option String
  activeDeadlineSeconds : Option Int
  backoffLimit : Option Int
  ttlSecondsAfterFinished : Option Int
  scriptConfigMapName : String
  status : JobStatus
  deriving Repr, DecidableEq

/-- Model of `ScriptStatus` (kbatch/alpha/v2/script.go). -/
structure ScriptStatus where
  configmap : Option ConfigMap
  isConfigmapApplied : Bool
  deriving Repr, DecidableEq

/-- Model of `Script` (kbatch/alpha/v2/script.go). -/
structure Script where
  name : String
  ns : String
  labels : Smap
  annotations : Smap
  spec : ScriptSpec
  status : ScriptStatus
  deriving Repr, DecidableEq

/-- Model of `TaskStatus` (kbatch/alpha/v2/task.go, second generation: the copy whose
`Status` carries `Active`/`Succeeded`/`Failed` counters and a `Condition`). -/
structure TaskStatus where
  job : Option Job
  isJobApplied : Bool
  script : Option Script
  isScriptApplied : Bool
  active : Int
  succeeded : Int
  failed : Int
  condition : Option TaskCondition
  deriving Repr, DecidableEq

def TaskStatus.zero : TaskStatus :=
  ⟨none, false, none, false, 0, 0, 0, none⟩

/-- Model of `Task` (kbatch/alpha/v2/task.go).  `ObjectMeta` is inlined to the fields
the code reads: name, namespace, labels, annotations. -/
structure Task where
  name : String
  ns : String
  labels : Smap
  annotations : Smap
  spec : TaskSpec
  status : TaskStatus
  deriving Repr, DecidableEq

/-! ## Validation (kbatch/alpha/v2)

`validate.Validate(obj)` type-asserts `obj` to the `Validator` interface and
reports no error when the assertion fails.  Go method sets are decisive
here: `TaskSpec.Validate` and `ScriptSpec.Validate` are declared with
POINTER receivers, so a `TaskSpec` (or `ScriptSpec`) VALUE does not
implement `Validator`, and `validate.Validate(t.Spec)` inside
`Task.Validate` is a no-op — the image/script/privilege/parameter/deadline
checks written in `TaskSpec.Validate` are dead code on the `RunTask`,
`GenerateScript` and `GenerateJob` paths.  Only the name and namespace
checks of `Task.Validate` are effective, and they are what `Task.validate`
below embeds.  `Parameter.Validate` and `Parameters.Validate` have VALUE
receivers and are faithful as standalone functions; they are embedded for
the parameter-rule claim even though `RunTask` never reaches them.
Errors are `Option String`: `some msg` is a non-nil `error`. -/

/-- Character class `[a-zA-Z0-9_-]` of the parameter-key pattern. -/
def isParamKeyChar (c : Char) : Bool :=
  ('a' ≤ c && c ≤ 'z') || ('A' ≤ c && c ≤ 'Z') || ('0' ≤ c && c ≤ '9') ||
    c = '_' || c = '-'

/-- Full-string match of the Go regular expression `^[-]{1,2}[a-zA-Z0-9_-]+$`
used by `Parameter.Validate`: one or two leading dashes followed by one or
more characters of the class. -/
def matchesParamKeyPat (s : List Char) : Bool :=
  match s with
  | '-' :: rest =>
      (decide (1 ≤ rest.length) && rest.all isParamKeyChar) ||
        (match rest with
         | '-' :: rest2 => decide (1 ≤ rest2.length) && rest2.all isParamKeyChar
         | _ => false)
  | _ => false

/-- Model of `Parameter.Validate` (kbatch/alpha/v2/parameter.go).  Key length is the
Go byte length; parameter keys are constrained by the pattern to ASCII, on
which byte length and character count coincide, so `List.length` of the
characters is used. -/
def Parameter.validate (p : Parameter) : Option String :=
  if p.key.data.length = 0 ∨ 32 ≤ p.key.data.length then
    some "invalid parameter name, length must be between 1 and 32"
  else if ¬ matchesParamKeyPat p.key.data then
    some "invalid parameter name, must match pattern"
  else if p.value = "" then
    some "invalid parameter value, must not be empty"
  else
    none

/-- Model of `Parameters.Validate` (kbatch/alpha/v2/parameter.go): an empty list
passes; otherwise the first element error is returned. -/
def parametersValidate (ps : List Parameter) : Option String :=
  match ps with
  | [] => none
  | p :: rest =>
      match p.validate with
      | some e => some e
      | none => parametersValidate rest

/-- Model of `Parameters.Args` (kbatch/alpha/v2/parameter.go). -/
def parametersArgs (ps : List Parameter) : List String :=
  ps.foldr (fun p acc => p.key :: p.value :: acc) []

/-- Model of `Task.Validate` (kbatch/alpha/v2/task.go): name and namespace must be
non-empty.  The source then calls `validate.Validate(t.Spec)`, but `t.Spec`
is a `TaskSpec` value and `TaskSpec.Validate` has a pointer receiver, so the
`Validator` type assertion fails and that call reports no error: the spec
checks never run, and validation ends here. -/
def Task.validate (t : Task) : Option String :=
  if t.name = "" then some "name cannot be empty"
  else if t.ns = "" then some "namespace cannot be empty"
  else none

/-! ## Task serialization

Modelled from the spec: "the full Task spec is embedded as a serialized
annotation on its workload object, enabling reconstruction of a Task from
cluster state alone".  The Go code serializes with `encoding/json`, an
external standard-library collaborator whose source is not part of this
repository; it is modelled by a concrete injective self-delimiting
serialization with a matching decoder.  What `json.Marshal` emits for a
`Task` — the `ObjectMeta` (name, namespace, labels, annotations) and the
`Spec`, with `Status` excluded by its `json:"-"` tag — is captured by
`TaskContent`. -/

def encNat (n : Nat) : List Char := List.replicate n '1' ++ ['0']

def decNat : List Char → Option (Nat × List Char)
  | '1' :: rest => (decNat rest).map (fun p => (p.1 + 1, p.2))
  | '0' :: rest => some (0, rest)
  | _ => none

def encStr (s : String) : List Char := encNat s.data.length ++ s.data

def decStr (l : List Char) : Option (String × List Char) :=
  match decNat l with
  | some (n, r) => if n ≤ r.length then some (⟨r.take n⟩, r.drop n) else none
  | none => none

def encInt : Int → List Char
  | Int.ofNat n => 'p' :: encNat n
  | Int.negSucc n => 'm' :: encNat n

def decInt : List Char → Option (Int × List Char)
  | 'p' :: rest => (decNat rest).map (fun p => (Int.ofNat p.1, p.2))
  | 'm' :: rest => (decNat rest).map (fun p => (Int.negSucc p.1, p.2))
  | _ => none

def encOpt (e : α → List Char) : Option α → List Char
  | none => ['n']
  | some a => 'j' :: e a

def decOpt (d : List Char → Option (α × List Char)) :
    List Char → Option (Option α × List Char)
  | 'n' :: rest => some (none, rest)
  | 'j' :: rest => (d rest).map (fun p => (some p.1, p.2))
  | _ => none

def encList (e : α → List Char) (l : List α) : List Char :=
  encNat l.length ++ (l.map e).flatten

def decListN (d : List Char → Option (α × List Char)) :
    Nat → List Char → Option (List α × List Char)
  | 0, l => some ([], l)
  | n + 1, l =>
      match d l with
      | some (a, r) => (decListN d n r).map (fun p => (a :: p.1, p.2))
      | none => none

def decList (d : List Char → Option (α × List Char)) (l : List Char) :
    Option (List α × List Char) :=
  match decNat l with
  | some (n, r) => decListN d n r
  | none => none

def encPairStr (kv : String × String) : List Char := encStr kv.1 ++ encStr kv.2

def decPairStr (l : List Char) : Option ((String × String) × List Char) :=
  match decStr l with
  | some (a, r) =>
      match decStr r with
      | some (b, r') => some ((a, b), r')
      | none => none
  | none => none

def encSmap (m : Smap) : List Char := encList encPairStr m

def decSmap (l : List Char) : Option (Smap × List Char) :=
  decList decPairStr l

def encParam (p : Parameter) : List Char := encStr p.key ++ encStr p.value

def decParam (l : List Char) : Option (Parameter × List Char) :=
  match decStr l with
  | some (k, r) =>
      match decStr r with
      | some (v, r') => some (⟨k, v⟩, r')
      | none => none
  | none => none

def encTaskSpec (s : TaskSpec) : List Char :=
  encStr s.scriptSpec.content ++ (encStr s.scriptSpec.executor ++
    (encStr s.image ++ (encOpt encStr s.privilege ++
      (encOpt (encList encParam) s.parameters ++
        (encOpt encInt s.activeDeadlineSeconds ++
          (encOpt encInt s.backoffLimit ++
            (encOpt encInt s.ttlSecondsAfterFinished ++
              (encSmap s.nodeSelector ++ encOpt encStr s.affinity))))))))

def decTaskSpec (l : List Char) : Option (TaskSpec × List Char) := do
  let (content, r1) ← decStr l
  let (executor, r2) ← decStr r1
  let (image, r3) ← decStr r2
  let (privilege, r4) ← decOpt decStr r3
  let (parameters, r5) ← decOpt (decList decParam) r4
  let (ads, r6) ← decOpt decInt r5
  let (backoff, r7) ← decOpt decInt r6
  let (ttl, r8) ← decOpt decInt r7
  let (nodeSel, r9) ← decSmap r8
  let (affinity, r10) ← decOpt decStr r9
  pure (⟨⟨content, executor⟩, image, privilege, parameters, ads, backoff,
    ttl, nodeSel, affinity⟩, r10)

/-- The projection of a `Task` that `json.Marshal` serializes: `ObjectMeta`
(name, namespace, labels, annotations) and `Spec`; `Status` carries the tag
`json:"-"` and is omitted. -/
structure TaskContent where
  name : String
  ns : String
  labels : Smap
  annotations : Smap
  spec : TaskSpec
  deriving Repr, DecidableEq

def encTaskContent (c : TaskContent) : List Char :=
  encStr c.name ++ (encStr c.ns ++ (encSmap c.labels ++
    (encSmap c.annotations ++ encTaskSpec c.spec)))

def decTaskContent (l : List Char) : Option (TaskContent × List Char) := do
  let (name, r1) ← decStr l
  let (ns, r2) ← decStr r1
  let (labels, r3) ← decSmap r2
  let (annots, r4) ← decSmap r3
  let (spec, r5) ← decTaskSpec r4
  pure (⟨name, ns, labels, annots, spec⟩, r5)

/-- Model of `json.Marshal` applied to a `Task` (model). -/
def marshalTask (c : TaskContent) : String := ⟨encTaskContent c⟩

/-- Model of `json.Unmarshal` of a serialized `Task` (model); trailing garbage is an
error, as in `encoding/json`. -/
def unmarshalTask (s : String) : Option TaskContent :=
  match decTaskContent s.data with
  | some (c, []) => some c
  | _ => none

/-! ## Resource generators (kbatch/alpha/v2) -/

def managerAddLabelKey : String := "kbatch.k8sutils.ppops.cn/manager"
def managerAddLabelVal : String := "alpha-v2"
def taskNameLabelKey : String := "kbatch.k8sutils.ppops.cn/task"
def taskContentAnnKey : String := "kbatch.k8sutils.ppops.cn/task-content"
def scriptNameLabelKey : String := "v2.alpha.kbatch.k8sutils.ppops.cn/script"
def scriptExecutorLabelKey : String := "v2.alpha.kbatch.k8sutils.ppops.cn/executor"
def scriptConfigMapDataKey : String := "script"
def k8sManagerSa : String := "k8sutils-k8s-manager-sa"

/-- Model of `ManagerLabelsDefault` (kbatch/alpha/v2/manager.go). -/
def managerLabelsDefault : Smap := [(managerAddLabelKey, managerAddLabelVal)]

/-- Model of `strings.HasSuffix`. -/
def strHasSuffix (s suf : String) : Bool := suf.data.isSuffixOf s.data

/-- Model of `strings.HasPrefix`. -/
def strHasPre (s pre : String) : Bool := pre.data.isPrefixOf s.data

/-- Modelled from the spec: `common.GenerateName2Name`, the name generator
behind "idempotent resource generation" — its source is not under `src/`.
From its call sites (`builders.JobBuilder` appends a `-` to the prefix
before calling, `onJobDeleted` recovers the owner key by trimming at the
last `-`), it appends a random dash-free suffix to the `generateName`
prefix; the suffix is made an explicit argument. -/
def generateName2Name (gn sfx : String) : String :=
  (if strHasSuffix gn "-" then gn else gn ++ "-") ++ sfx

/-- Model of `cache.MetaNamespaceKeyFunc`: `namespace + "/" + name`, or the bare name
when the namespace is empty.  Shared by the trackers and the controller. -/
def keyOf (ns name : String) : String :=
  if ns = "" then name else ns ++ "/" ++ name

/-- Model of `Task.SetLabels` (kbatch/alpha/v2/task.go). -/
def Task.setLabels (t : Task) (ls : Smap) : Task :=
  { t with labels := smapMerge t.labels ls }

/-- Model of `Script.GenerateConfigMap` (kbatch/alpha/v2/script.go) together with the
`builders.configMapBuilder` it drives (builders/configmapbuilder.go):
construct the ConfigMap holding the script body under the `script` data
key, carry over the script's labels and annotations, stamp the script-name
and executor labels, and validate the builder. -/
def Script.generateConfigMap (s : Script) (sfx : String) :
    Except String (Script × ConfigMap) :=
  let generateName := if strHasSuffix s.name "-" then s.name else s.name ++ "-"
  let ns := if s.ns = "" then "default" else s.ns
  let name := generateName2Name generateName sfx
  let labels1 :=
    smapInsert (smapInsert s.labels scriptNameLabelKey s.name)
      scriptExecutorLabelKey s.spec.executor
  let cm : ConfigMap :=
    ⟨name, ns, labels1, s.annotations, [(scriptConfigMapDataKey, s.spec.content)]⟩
  if name = "" ∨ generateName = "" ∨ strHasPre generateName name ∨
      ¬ name = cm.name then
    Except.error "configMap name or namePrefix is not valid"
  else if ns = "" ∨ ¬ ns = cm.ns then
    Except.error "namespace is not valid"
  else if scriptConfigMapDataKey = "" then
    Except.error "scriptName cannot be empty"
  else if smapGet cm.data scriptConfigMapDataKey = none then
    Except.error "scriptName is not valid"
  else if s.spec.content = "" then
    Except.error "scriptContent cannot be empty"
  else if ¬ smapGet cm.data scriptConfigMapDataKey = some s.spec.content then
    Except.error "scriptContent is not valid"
  else
    Except.ok ({ s with status := ⟨some cm, s.status.isConfigmapApplied⟩ }, cm)

/-- Model of `Task.GenerateScript` (kbatch/alpha/v2/task.go): validate, build the
`Script` via `NewScript` (task annotations and labels plus the task-name
label), generate its ConfigMap, and record the script in the task status.
`scriptSfx` and `cmSfx` are the two fresh name suffixes drawn inside. -/
def Task.generateScript (t : Task) (scriptSfx cmSfx : String) :
    Except String (Task × Script) :=
  match t.validate with
  | some e => Except.error e
  | none =>
    let labels := smapInsert t.labels taskNameLabelKey t.name
    let script0 : Script :=
      ⟨generateName2Name t.name scriptSfx, t.ns, labels, t.annotations,
        ⟨t.spec.scriptSpec.content, t.spec.scriptSpec.executor⟩, ⟨none, false⟩⟩
    match script0.generateConfigMap cmSfx with
    | Except.error e => Except.error e
    | Except.ok (script1, _) =>
        Except.ok ({ t with status := { t.status with script := some script1 } },
          script1)

/-- Model of `Task.SetContentToAnnotation` (kbatch/alpha/v2/task.go): drop any stale
content annotation, serialize the task, and store the serialization under
the content annotation key. -/
def Task.setContentToAnnot (t : Task) : Task :=
  let annots0 :=
    if t.annotations.length > 0 then smapDelete t.annotations taskContentAnnKey
    else t.annotations
  let content := marshalTask ⟨t.name, t.ns, t.labels, annots0, t.spec⟩
  { t with annotations := smapInsert annots0 taskContentAnnKey content }

/-- The runner container command chosen by `builders.jobBuilder.initJob`:
`[executor, "-c"]` for sh/bash, `[executor]` for python, or the nsenter
wrapper for host-root jobs. -/
def initJobCommand (isNsenter : Bool) (executor : String) : List String :=
  if isNsenter then
    ["nsenter", "--target", "1", "--mount", "--uts", "--ipc", "--net",
      "--pid", scriptExecutorSh, "-c"]
  else if executor = scriptExecutorBash ∨ executor = scriptExecutorSh then
    [executor, "-c"]
  else if executor = scriptExecutorPython then [executor]
  else []

/-- Model of `builders.jobBuilder.setScriptExecutor` (builders/jobbuilder.go),
invoked by `SetScript`: replaces the command with the `-l` variant. -/
def setScriptExecutorCommand (isNsenter : Bool) (executor : String)
    (prev : List String) : List String :=
  if isNsenter then
    ["nsenter", "--target", "1", "--mount", "--uts", "--ipc", "--net",
      "--pid", scriptExecutorSh, "-l"]
  else if executor = scriptExecutorBash ∨ executor = scriptExecutorSh then
    [executor, "-l"]
  else if executor = scriptExecutorPython then [executor]
  else prev

/-- Model of `Task.GenerateJob` (kbatch/alpha/v2/task.go) together with the
`builders.jobBuilder` calls it performs, in source order: validate,
derive privilege flags, collect parameter args, build the job skeleton
(`JobBuilder`/`initJob`), optionally attach the manager service account,
mount the script ConfigMap (`SetScript`: command, script volume, args
rewritten to the script path plus parameter args), embed the serialized
task (`SetContentToAnnotation`) and stamp annotations and labels on job
and pod template, then node placement and deadline/backoff/TTL knobs. -/
def Task.generateJob (t : Task) (jobSfx : String) :
    Except String (Task × Job) :=
  match t.validate with
  | some e => Except.error e
  | none =>
    let isNsenter := t.spec.privilege = some taskPrivilegeHostRoot
    let needsServiceAccount := t.spec.privilege = some taskPrivilegeClusterRoot
    let args :=
      match t.spec.parameters with
      | some ps => if ps.isEmpty then [] else parametersArgs ps
      | none => []
    let generateName :=
      if strHasSuffix t.name "-" then t.name else t.name ++ "-"
    let ns := if t.ns = "" then "default" else t.ns
    let name := generateName2Name generateName jobSfx
    let image := if t.spec.image = "" then "alpine:3.19.1" else t.spec.image
    let command0 := initJobCommand isNsenter t.spec.scriptSpec.executor
    match t.status.script with
    | none => Except.error "script is not generated"
    | some script =>
      match script.status.configmap with
      | none => Except.error "configmap is not generated"
      | some cm =>
        let command := setScriptExecutorCommand isNsenter
          t.spec.scriptSpec.executor command0
        let scriptName := scriptConfigMapDataKey ++ "-" ++ name
        let scriptFullPath := "/tmp/" ++ scriptName
        let args1 := scriptFullPath :: args
        let t1 := t.setContentToAnnot
        let labels := smapInsert t1.labels taskNameLabelKey t1.name
        let job : Job :=
          { name := name
            ns := ns
            labels := labels
            annotations := t1.annotations
            templateLabels := labels
            templateAnnotations := t1.annotations
            image := image
            serviceAccountName := if needsServiceAccount then k8sManagerSa else ""
            hostNetwork := isNsenter
            hostPID := isNsenter
            command := command
            args := args1
            nodeSelector := t.spec.nodeSelector
            affinity := t.spec.affinity
            activeDeadlineSeconds := t.spec.activeDeadlineSeconds
            backoffLimit := some (t.spec.backoffLimit.getD 0)
            ttlSecondsAfterFinished :=
              some (t.spec.ttlSecondsAfterFinished.getD 300)
            scriptConfigMapName := cm.name
            status := JobStatus.zero }
        Except.ok
          ({ t1 with status := { t1.status with job := some job } }, job)

/-- Model of `Job2Task` (kbatch/alpha/v2/task.go): recover the task from the job's
content annotation, then fill its status from the job status, taking the
terminal condition from the first reported job condition. -/
def job2Task (job : Job) : Except String Task :=
  if job.annotations.length = 0 then Except.error "job annotations is nil"
  else
    let content := (smapGet job.annotations taskContentAnnKey).getD ""
    if content = "" then Except.error "task content is empty"
    else
      match unmarshalTask content with
      | none => Except.error "unmarshal failed"
      | some c =>
        let condition : Option TaskCondition :=
          match job.status.conditions with
          | [] => none
          | c0 :: _ =>
              some ⟨c0.type_, c0.status, c0.lastProbeTime,
                c0.lastTransitionTime, c0.reason, c0.message⟩
        Except.ok
          ⟨c.name, c.ns, c.labels, c.annotations, c.spec,
            ⟨some job, true, none, false, job.status.active,
              job.status.succeeded, job.status.failed, condition⟩⟩

/-! ## Tracking tables (kbatch/alpha/v2/trackers.go)

`sync.Map` keyed by the `MetaNamespaceKeyFunc` key, modelled as an
association list with the same replace-or-append/delete operations. -/

def alistGet {α : Type} (m : List (String × α)) (k : String) : Option α :=
  match m with
  | [] => none
  | (k', v) :: rest => if k' = k then some v else alistGet rest k

def alistInsert {α : Type} (m : List (String × α)) (k : String) (v : α) :
    List (String × α) :=
  match m with
  | [] => [(k, v)]
  | (k', v') :: rest =>
      if k' = k then (k, v) :: rest else (k', v') :: alistInsert rest k v

def alistDelete {α : Type} (m : List (String × α)) (k : String) :
    List (String × α) :=
  match m with
  | [] => []
  | (k', v') :: rest =>
      if k' = k then alistDelete rest k else (k', v') :: alistDelete rest k

/-! ## Cluster state

Modelled from the spec: the cluster API client is an external collaborator
("assumed as a given transport"), so the create/list/delete calls the
manager performs become explicit state passing over a `Cluster` record.
`log` keeps the order of mutations so that "script is always created
first" is expressible.  Kubernetes object names are unique per kind and
namespace; `clusterWF` states that invariant. -/

inductive CEvent
  | createCM (cm : ConfigMap)
  | createJob (j : Job)
  | delJob (ns name : String)
  | delCM (ns name : String)
  deriving Repr, DecidableEq

structure Cluster where
  configMaps : List ConfigMap
  jobs : List Job
  log : List CEvent
  deriving Repr, DecidableEq

/-- Name uniqueness per kind and namespace, the Kubernetes invariant. -/
def clusterWF (c : Cluster) : Prop :=
  (c.jobs.map (fun j => (j.ns, j.name))).Nodup ∧
    (c.configMaps.map (fun m => (m.ns, m.name))).Nodup

/-- Model of `Clientset.CreateConfigMap` (model). -/
def createConfigMap (c : Cluster) (cm : ConfigMap) : Cluster :=
  { c with configMaps := c.configMaps ++ [cm],
           log := c.log ++ [CEvent.createCM cm] }

/-- Model of `Clientset.CreateJob` (model). -/
def createJob (c : Cluster) (j : Job) : Cluster :=
  { c with jobs := c.jobs ++ [j], log := c.log ++ [CEvent.createJob j] }

/-- Model of `Clientset.ListJob` with a label filter as called by `CleanupTask`
(model): jobs of the namespace whose labels include every selector pair. -/
def listJob (c : Cluster) (ns : String) (labels : Smap) : List Job :=
  c.jobs.filter (fun j => j.ns == ns && smapSub labels j.labels)

/-- Model of `Clientset.ListConfigMap` (model), same filtering. -/
def listConfigMap (c : Cluster) (ns : String) (labels : Smap) :
    List ConfigMap :=
  c.configMaps.filter (fun m => m.ns == ns && smapSub labels m.labels)

/-- Model of `Clientset.DeleteJob` (model): deleting an absent object is a NotFound
error, as in the Kubernetes API. -/
def deleteJob (c : Cluster) (ns name : String) : Except String Cluster :=
  if c.jobs.any (fun j => j.ns == ns && j.name == name) then
    Except.ok { c with
      jobs := c.jobs.filter (fun j => !(j.ns == ns && j.name == name)),
      log := c.log ++ [CEvent.delJob ns name] }
  else Except.error "jobs not found"

/-- Model of `Clientset.DeleteConfigMap` (model). -/
def deleteConfigMap (c : Cluster) (ns name : String) : Except String Cluster :=
  if c.configMaps.any (fun m => m.ns == ns && m.name == name) then
    Except.ok { c with
      configMaps :=
        c.configMaps.filter (fun m => !(m.ns == ns && m.name == name)),
      log := c.log ++ [CEvent.delCM ns name] }
  else Except.error "configmaps not found"

/-! ## Manager (kbatch/alpha/v2/manager.go) -/

/-- Manager state threaded through `RunTask`: the task and job tracking
tables plus the cluster. -/
structure MState where
  taskTracker : List (String × Task)
  jobTracker : List (String × Job)
  cluster : Cluster
  deriving Repr, DecidableEq

/-- The fresh name suffixes drawn by the four `GenerateName2Name` calls a
`RunTask` run performs, and the outcomes of its two cluster creations. -/
structure RunEnv where
  scriptSfx : String
  scriptCmSfx : String
  cmSfx : String
  jobSfx : String
  cmCreateOk : Bool
  jobCreateOk : Bool
  deriving Repr, DecidableEq

/-- Model of `manager.RunTask` (kbatch/alpha/v2/manager.go), in source order:
validate; add the manager label; store the task in the task tracker (with
the deferred rollback removing it again whenever a later step fails);
generate the script and its ConfigMap; create the ConfigMap in the
cluster; mark the script applied; generate the job (which embeds the
serialized task as an annotation); create the job; mark it applied and
store it in the job tracker. -/
def runTask (env : RunEnv) (s : MState) (task : Task) :
    Except String Unit × MState :=
  match task.validate with
  | some e => (Except.error e, s)
  | none =>
    let task := task.setLabels managerLabelsDefault
    let tkey := keyOf task.ns task.name
    let s := { s with taskTracker := alistInsert s.taskTracker tkey task }
    let rollback := fun (st : MState) =>
      { st with taskTracker := alistDelete st.taskTracker tkey }
    match task.generateScript env.scriptSfx env.scriptCmSfx with
    | Except.error e => (Except.error e, rollback s)
    | Except.ok (task, script) =>
      match script.generateConfigMap env.cmSfx with
      | Except.error e => (Except.error e, rollback s)
      | Except.ok (script, configMap) =>
        if ¬ env.cmCreateOk then
          (Except.error "create configmap failed", rollback s)
        else
          let s := { s with cluster := createConfigMap s.cluster configMap }
          let script := { script with status := ⟨some configMap, true⟩ }
          let task :=
            { task with status := { task.status with script := some script } }
          match task.generateJob env.jobSfx with
          | Except.error e => (Except.error e, rollback s)
          | Except.ok (task, job) =>
            if ¬ env.jobCreateOk then
              (Except.error "create job failed", rollback s)
            else
              let s := { s with cluster := createJob s.cluster job }
              let task :=
                { task with status :=
                  { task.status with isJobApplied := true, job := some job } }
              let s := { s with
                taskTracker := alistInsert s.taskTracker tkey task,
                jobTracker :=
                  alistInsert s.jobTracker (keyOf job.ns job.name) job }
              (Except.ok (), s)

def cleanupJobs : List Job → Cluster → Except String Unit × Cluster
  | [], c => (Except.ok (), c)
  | j :: rest, c =>
      match deleteJob c j.ns j.name with
      | Except.error e => (Except.error e, c)
      | Except.ok c' => cleanupJobs rest c'

def cleanupCMs : List ConfigMap → Cluster → Except String Unit × Cluster
  | [], c => (Except.ok (), c)
  | m :: rest, c =>
      match deleteConfigMap c m.ns m.name with
      | Except.error e => (Except.error e, c)
      | Except.ok c' => cleanupCMs rest c'

/-- Model of `manager.CleanupTask` (kbatch/alpha/v2/manager.go): list the jobs
carrying the manager label and the task-name label in the task's
namespace and delete each, then the same for ConfigMaps; any delete error
aborts. -/
def cleanupTask (c : Cluster) (task : Task) : Except String Unit × Cluster :=
  let labels := smapInsert managerLabelsDefault taskNameLabelKey task.name
  match cleanupJobs (listJob c task.ns labels) c with
  | (Except.error e, c') => (Except.error e, c')
  | (Except.ok _, c') =>
      match cleanupCMs (listConfigMap c' task.ns labels) c' with
      | (Except.error e, c'') => (Except.error e, c'')
      | (Except.ok _, c'') => (Except.ok (), c'')

/-- One recorded `ITaskService` callback invocation. -/
inductive SvcCall
  | statusUpdate (t : Task)
  | onSucceed (t : Task)
  | onFailed (t : Task)
  deriving Repr, DecidableEq

/-- Job-handler state for `onJobAddedUpdated`: the job tracker plus the log
of `ITaskService` callback invocations. -/
structure JMState where
  jobTracker : List (String × Job)
  calls : List SvcCall
  deriving Repr, DecidableEq

/-- The `do` closure of `manager.onJobAddedUpdated`: store the job, rebuild
the task from the job annotation, invoke `OnStatusUpdate`, and when a
condition is present invoke `OnSucceed`/`OnFailed` (by condition type) and
drop the job from the tracker. -/
def onJobDo (s : JMState) (job : Job) : Except String Unit × JMState :=
  let s := { s with
    jobTracker := alistInsert s.jobTracker (keyOf job.ns job.name) job }
  match job2Task job with
  | Except.error e => (Except.error e, s)
  | Except.ok task =>
    let s := { s with calls := s.calls ++ [SvcCall.statusUpdate task] }
    match task.status.condition with
    | some cond =>
        let s :=
          if cond.type_ = taskComplete then
            { s with calls := s.calls ++ [SvcCall.onSucceed task] }
          else
            { s with calls := s.calls ++ [SvcCall.onFailed task] }
        (Except.ok (),
          { s with jobTracker :=
              alistDelete s.jobTracker (keyOf job.ns job.name) })
    | none => (Except.ok (), s)

/-- Model of `manager.onJobAddedUpdated` (kbatch/alpha/v2/manager.go, lines
368–427).  The guard is translated comparison-for-comparison from the
source: `older.Active == newer.Active && older.Succeeded == newer.Succeeded
&& older.Failed == newer.Succeeded && len(older.Conditions) ==
len(newer.Conditions)` — the third comparison reads the *Succeeded* count
of the new job where its own comment ("If the status is consistent, skip
the subsequent operation") calls for the Failed count. -/
def onJobAddedUpdated (s : JMState) (key : String) (job : Job) :
    Except String Unit × JMState :=
  match alistGet s.jobTracker key with
  | some oldJob =>
      if oldJob.status.active == job.status.active &&
          oldJob.status.succeeded == job.status.succeeded &&
          oldJob.status.failed == job.status.succeeded &&
          oldJob.status.conditions.length == job.status.conditions.length then
        (Except.ok (), s)
      else onJobDo s job
  | none => onJobDo s job

/-! ## Reconciliation controller retry policy (controller/controller.go) -/

/-- What `controller.handleErr` does with a key: reset its backoff history,
requeue it rate-limited, or drop it and report the error. -/
inductive RetryAction
  | forget
  | addRateLimited
  | dropAndReport
  deriving Repr, DecidableEq

/-- Model of `controller.handleErr` (controller/controller.go, lines 196–219) as a
function of whether the callback errored and of `queue.NumRequeues(key)`,
the key's rate-limiter failure count: nil error forgets the backoff
history; an error below the ceiling of 5 requeues rate-limited; at the
ceiling the key is forgotten, dropped, and reported via
`utilruntime.HandleError`. -/
def handleErr (errored : Bool) (numRequeues : Nat) : RetryAction :=
  if ¬ errored then RetryAction.forget
  else if numRequeues < 5 then RetryAction.addRateLimited
  else RetryAction.dropAndReport

/-- Worker loop over a single key whose business callback always errors:
each iteration is one `processBusiness` invocation followed by
`handleErr`; `AddRateLimited` bumps `NumRequeues` and redelivers the key.
Returns (callback invocations, rate-limited requeues, reports). -/
def runAlwaysFailingAux : Nat → Nat → Nat × Nat × Nat
  | 0, _ => (0, 0, 0)
  | fuel + 1, n =>
      match handleErr true n with
      | RetryAction.addRateLimited =>
          let (i, r, p) := runAlwaysFailingAux fuel (n + 1)
          (i + 1, r + 1, p)
      | RetryAction.dropAndReport => (1, 0, 1)
      | RetryAction.forget => (1, 0, 0)

/-- The full lifetime of an always-failing key, starting with a clean
backoff history. -/
def alwaysFailingTrace : Nat × Nat × Nat := runAlwaysFailingAux 10 0

/-! ## Rate-limited work queue (client-go workqueue)

Modelled from the spec: the deduplicating queue behind `processNextItem`
is the client-go work queue, an external collaborator; its documented
semantics — "the queue itself guarantees at-most-one in-flight worker per
key", a second enqueue of an in-flight key being remembered as dirty
rather than dispatched — are modelled by the standard queue/dirty/
processing triple. -/

structure WQueue where
  queue : List String
  dirty : List String
  processing : List String
  deriving Repr, DecidableEq

/-- Model of `workqueue.Add`: ignore an already-dirty item; otherwise mark dirty and
enqueue unless a worker currently holds the item. -/
def wqAdd (q : WQueue) (item : String) : WQueue :=
  if item ∈ q.dirty then q
  else
    let q' := { q with dirty := q.dirty ++ [item] }
    if item ∈ q'.processing then q'
    else { q' with queue := q'.queue ++ [item] }

/-- Model of `workqueue.Get`: pop the head, mark it processing, clear its dirty
mark.  An empty queue blocks; that is the `none` case. -/
def wqGet (q : WQueue) : Option String × WQueue :=
  match q.queue with
  | [] => (none, q)
  | item :: rest =>
      (some item,
        { queue := rest, dirty := q.dirty.erase item,
          processing := q.processing ++ [item] })

/-- Model of `workqueue.Done` (the controller's deferred `queue.Done(key)`): release
the item; if it went dirty while being processed, requeue it. -/
def wqDone (q : WQueue) (item : String) : WQueue :=
  let q' := { q with processing := q.processing.erase item }
  if item ∈ q'.dirty then { q' with queue := q'.queue ++ [item] }
  else q'

/-- Queue states reachable by the controller's discipline: workers call
`Done` only on an item they hold (guaranteed by `processNextItem`'s
`defer queue.Done(key)` directly after `Get`). -/
inductive WReach : WQueue → Prop
  | init : WReach ⟨[], [], []⟩
  | add (q : WQueue) (i : String) : WReach q → WReach (wqAdd q i)
  | get (q : WQueue) : WReach q → WReach (wqGet q).2
  | done (q : WQueue) (i : String) : WReach q → i ∈ q.processing →
      WReach (wqDone q i)

/-! ## Log streaming pipeline (kbatch/alpha/v2/manager.go) -/

/-- Model of `LogLine` (kbatch/alpha/v2 types): timestamp plus raw message. -/
structure LogLine where
  timestamp : Int
  message : String
  deriving Repr, DecidableEq

/-- Model of `EndOfPodLine` (kbatch/alpha/v2/manager.go line 447). -/
def endOfPodLine : String := "---------- END OF TASK-RUN ----------\n"

/-- Model of `initBufSize` of `onPodAddedUpdated`: the log channel / flush buffer
capacity. -/
def initBufSize : Nat := 100

/-- What the flush goroutine observes, in order: a line received from the
log channel, a ticker fire, or the channel closing. -/
inductive FlushEvent
  | line (l : LogLine)
  | tick
  | closeCh
  deriving Repr, DecidableEq

/-- The flush goroutine of `onPodAddedUpdated` (manager.go lines 513–561)
as a function of its event sequence, returning the batches handed to
`OnLogs` in order.  On a line: flush first if the buffer already holds
`initBufSize` lines, then append.  On a tick: flush a non-empty buffer.
On channel closure: force a final flush with the end-of-stream sentinel
appended (`doFlush(true)`), then stop.  `now` is the sentinel timestamp
(`metav1.Now()`). -/
def flushLoop (now : Int) (buf : List LogLine) :
    List FlushEvent → List (List LogLine)
  | [] => []
  | FlushEvent.line l :: rest =>
      if initBufSize ≤ buf.length then buf :: flushLoop now [l] rest
      else flushLoop now (buf ++ [l]) rest
  | FlushEvent.tick :: rest =>
      if buf.length = 0 then flushLoop now buf rest
      else buf :: flushLoop now [] rest
  | FlushEvent.closeCh :: _ => [buf ++ [⟨now, endOfPodLine⟩]]

/-- The lines carried by an event sequence, in order. -/
def linesOf (evs : List FlushEvent) : List LogLine :=
  evs.filterMap (fun e =>
    match e with
    | FlushEvent.line l => some l
    | _ => none)

/-- Model of `strings.SplitN(s, sep, 2)`: split at the first separator occurrence,
or return the whole string as a singleton when the separator is absent. -/
def splitN2 (s : List Char) (sep : Char) : List (List Char) :=
  if sep ∈ s then
    [s.takeWhile (fun c => !(c == sep)),
      (s.dropWhile (fun c => !(c == sep))).tail]
  else [s]

/-- The per-line body of `manager.getOrTailLogs` (manager.go lines
599–613): split the line read from the stream at the first space,
parse the first part as an RFC3339Nano timestamp discarding the parse
error (`timestamp, _ := time.Parse(...)`, zero value on failure), and send
`LogLine{timestamp, lst[1]}`.  `parseTime` stands for `time.Parse`; `none`
models the index-out-of-range panic of `lst[1]` when the split yields
fewer than two parts. -/
def processLogLine (parseTime : String → Option Int) (line : String) :
    Option LogLine :=
  match splitN2 line.data ' ' with
  | [ts, msg] => some ⟨(parseTime ⟨ts⟩).getD 0, ⟨msg⟩⟩
  | _ => none

/-! ## Auxiliary predicates -/

/-- The invariant maintained by the work queue under the controller's
discipline: no key queued twice, no key held by two workers, no queued key
simultaneously in flight, every queued key marked dirty. -/
def WQInv (q : WQueue) : Prop :=
  q.queue.Nodup ∧ q.processing.Nodup ∧
    (∀ i ∈ q.queue, i ∉ q.processing) ∧ (∀ i ∈ q.queue, i ∈ q.dirty)

/-- Key (namespace, name) equality between jobs, as tested by
`deleteJob`. -/
def jobKeyMatch (j x : Job) : Bool := x.ns == j.ns && x.name == j.name

/-- Key (namespace, name) equality between ConfigMaps, as tested by
`deleteConfigMap`. -/
def cmKeyMatch (m x : ConfigMap) : Bool := x.ns == m.ns && x.name == m.name

/-! ## Concrete fixtures used by witnesses -/

def exSpec : TaskSpec :=
  ⟨⟨"c", "sh"⟩, "i", none, none, none, none, none, [], none⟩

def exTask : Task := ⟨"t", "d", [], [], exSpec, TaskStatus.zero⟩

def exEnv : RunEnv := ⟨"a", "b", "c", "e", true, true⟩

def exS0 : MState := ⟨[], [], ⟨[], [], []⟩⟩

def exJobFallback : Job :=
  ⟨"", "", [], [], [], [], "", "", false, false, [], [], [], none, none,
    none, none, "", JobStatus.zero⟩

/-- The job `exTask.generateJob` produces after `generateScript`. -/
def exJobPlain : Job :=
  match exTask.generateScript "a" "b" with
  | Except.ok (t1, _) =>
      match t1.generateJob "e" with
      | Except.ok (_, job) => job
      | Except.error _ => exJobFallback
  | Except.error _ => exJobFallback

/-- Model of `exJobPlain` as observed with one succeeded pod and no condition yet. -/
def exJob : Job := { exJobPlain with status := ⟨0, 1, 0, []⟩ }

def exScFallback : Script := ⟨"", "", [], [], ⟨"", ""⟩, ⟨none, false⟩⟩

/-- The task state after `exTask.generateScript`. -/
def exT1 : Task :=
  match exTask.generateScript "a" "b" with
  | Except.ok (t1, _) => t1
  | Except.error _ => exTask

/-- The script generated from `exTask`. -/
def exSc : Script :=
  match exTask.generateScript "a" "b" with
  | Except.ok (_, sc) => sc
  | Except.error _ => exScFallback

/-- The task state after `exT1.generateJob`. -/
def exT2 : Task :=
  match exT1.generateJob "e" with
  | Except.ok (t2, _) => t2
  | Except.error _ => exT1

def exKey : String := keyOf exJob.ns exJob.name

/-- A task whose single parameter has a key without the mandatory leading
dash, violating the parameter-key pattern. -/
def badParamTask : Task :=
  ⟨"t", "d", [], [],
    { exSpec with parameters := some [⟨"x", "1"⟩] }, TaskStatus.zero⟩

/-- The cluster state right after a successful `runTask` of `exTask`. -/
def exCluster : Cluster := (runTask exEnv exS0 exTask).2.cluster

/-- A body of 150 lines — more than the 100-line buffer capacity. -/
def exFlushBody : List FlushEvent :=
  List.replicate 150 (FlushEvent.line ⟨1, "x"⟩)

/-! ## Map and tracker lemmas -/

theorem smapGet_insert_self (m : Smap) (k v : String) :
    smapGet (smapInsert m k v) k = some v := by
  induction m with
  | nil => simp [smapInsert, smapGet]
  | cons hd tl ih =>
      obtain ⟨k', v'⟩ := hd
      by_cases h : k' = k
      · simp [smapInsert, smapGet, h]
      · simp [smapInsert, smapGet, h, ih]

theorem smapGet_insert_ne (m : Smap) (k v k' : String) (h : k ≠ k') :
    smapGet (smapInsert m k v) k' = smapGet m k' := by
  induction m with
  | nil => simp [smapInsert, smapGet, h]
  | cons hd tl ih =>
      obtain ⟨ka, va⟩ := hd
      by_cases hk : ka = k
      · subst hk
        simp [smapInsert, smapGet, h]
      · simp [smapInsert, smapGet, hk, ih]

theorem smapInsert_ne_nil (m : Smap) (k v : String) :
    smapInsert m k v ≠ [] := by
  cases m with
  | nil => simp [smapInsert]
  | cons hd tl =>
      obtain ⟨k', v'⟩ := hd
      by_cases h : k' = k <;> simp [smapInsert, h]

theorem decNat_replicate (n : Nat) (rest : List Char) :
    decNat (List.replicate n '1' ++ '0' :: rest) = some (n, rest) := by
  induction n with
  | zero => simp [decNat]
  | succ m ih => simp [List.replicate_succ, decNat, ih]

theorem decNat_encNat (n : Nat) (rest : List Char) :
    decNat (encNat n ++ rest) = some (n, rest) := by
  simpa [encNat, List.append_assoc, List.singleton_append] using
    decNat_replicate n rest

theorem decStr_encStr (s : String) (rest : List Char) :
    decStr (encStr s ++ rest) = some (s, rest) := by
  simp [decStr, encStr, List.append_assoc, decNat_encNat,
    List.take_left, List.drop_left, List.length_append, Nat.le_add_right]

theorem decInt_encInt (i : Int) (rest : List Char) :
    decInt (encInt i ++ rest) = some (i, rest) := by
  cases i with
  | ofNat n => simp [encInt, decInt, decNat_encNat]
  | negSucc n => simp [encInt, decInt, decNat_encNat]

theorem decOpt_encOpt (e : α → List Char)
    (d : List Char → Option (α × List Char))
    (hrt : ∀ a rest, d (e a ++ rest) = some (a, rest))
    (o : Option α) (rest : List Char) :
    decOpt d (encOpt e o ++ rest) = some (o, rest) := by
  cases o with
  | none => simp [encOpt, decOpt]
  | some a => simp [encOpt, decOpt, hrt]

theorem decListN_encList (e : α → List Char)
    (d : List Char → Option (α × List Char))
    (hrt : ∀ a rest, d (e a ++ rest) = some (a, rest))
    (l : List α) (rest : List Char) :
    decListN d l.length ((l.map e).flatten ++ rest) = some (l, rest) := by
  induction l with
  | nil => simp [decListN]
  | cons hd tl ih => simp [decListN, List.append_assoc, hrt, ih]

theorem decList_encList (e : α → List Char)
    (d : List Char → Option (α × List Char))
    (hrt : ∀ a rest, d (e a ++ rest) = some (a, rest))
    (l : List α) (rest : List Char) :
    decList d (encList e l ++ rest) = some (l, rest) := by
  simp [decList, encList, List.append_assoc, decNat_encNat,
    decListN_encList e d hrt]

theorem decPairStr_encPairStr (kv : String × String) (rest : List Char) :
    decPairStr (encPairStr kv ++ rest) = some (kv, rest) := by
  simp [decPairStr, encPairStr, List.append_assoc, decStr_encStr]

theorem decSmap_encSmap (m : Smap) (rest : List Char) :
    decSmap (encSmap m ++ rest) = some (m, rest) :=
  decList_encList encPairStr decPairStr decPairStr_encPairStr m rest

theorem decParam_encParam (p : Parameter) (rest : List Char) :
    decParam (encParam p ++ rest) = some (p, rest) := by
  simp [decParam, encParam, List.append_assoc, decStr_encStr]

theorem decTaskSpec_encTaskSpec (s : TaskSpec) (rest : List Char) :
    decTaskSpec (encTaskSpec s ++ rest) = some (s, rest) := by
  simp only [decTaskSpec, encTaskSpec, List.append_assoc]
  rw [decStr_encStr]
  simp only [Option.bind_eq_bind, Option.some_bind]
  rw [decStr_encStr]
  simp only [Option.some_bind]
  rw [decStr_encStr]
  simp only [Option.some_bind]
  rw [decOpt_encOpt encStr decStr decStr_encStr]
  simp only [Option.some_bind]
  rw [decOpt_encOpt (encList encParam) (decList decParam)
    (decList_encList encParam decParam decParam_encParam)]
  simp only [Option.some_bind]
  rw [decOpt_encOpt encInt decInt decInt_encInt]
  simp only [Option.some_bind]
  rw [decOpt_encOpt encInt decInt decInt_encInt]
  simp only [Option.some_bind]
  rw [decOpt_encOpt encInt decInt decInt_encInt]
  simp only [Option.some_bind]
  rw [decSmap_encSmap]
  simp only [Option.some_bind]
  rw [decOpt_encOpt encStr decStr decStr_encStr]
  simp only [Option.some_bind]
  rfl

theorem decTaskContent_encTaskContent (c : TaskContent) (rest : List Char) :
    decTaskContent (encTaskContent c ++ rest) = some (c, rest) := by
  simp only [decTaskContent, encTaskContent, List.append_assoc]
  rw [decStr_encStr]
  simp only [Option.bind_eq_bind, Option.some_bind]
  rw [decStr_encStr]
  simp only [Option.some_bind]
  rw [decSmap_encSmap]
  simp only [Option.some_bind]
  rw [decSmap_encSmap]
  simp only [Option.some_bind]
  rw [decTaskSpec_encTaskSpec]
  simp only [Option.some_bind]
  rfl

theorem unmarshalTask_marshalTask (c : TaskContent) :
    unmarshalTask (marshalTask c) = some c := by
  have h := decTaskContent_encTaskContent c []
  simp only [List.append_nil] at h
  simp [unmarshalTask, marshalTask, h]

theorem marshalTask_ne_empty (c : TaskContent) : marshalTask c ≠ "" := by
  intro h
  have hd := congrArg String.data h
  simp [marshalTask, encTaskContent, encStr, encNat] at hd

/-! ## Work-queue invariant lemmas -/

theorem wqInv_init : WQInv ⟨[], [], []⟩ := by
  refine ⟨List.nodup_nil, List.nodup_nil, ?_, ?_⟩ <;> intro i hi <;> cases hi

theorem wqInv_add (q : WQueue) (i : String) (h : WQInv q) :
    WQInv (wqAdd q i) := by
  obtain ⟨hq, hp, hqp, hqd⟩ := h
  unfold wqAdd
  by_cases hd : i ∈ q.dirty
  · simpa [hd] using ⟨hq, hp, hqp, hqd⟩
  · simp only [hd, if_false]
    by_cases hpr : i ∈ q.processing
    · simp only [hpr, if_true]
      exact ⟨hq, hp, hqp, fun j hj => List.mem_append_left _ (hqd j hj)⟩
    · simp only [hpr, if_false]
      refine ⟨?_, hp, ?_, ?_⟩
      · refine List.Nodup.append hq (List.nodup_singleton i) ?_
        intro a ha hb
        rw [List.mem_singleton] at hb
        subst hb
        exact hd (hqd a ha)
      · intro j hj
        rcases List.mem_append.mp hj with hj | hj
        · exact hqp j hj
        · rw [List.mem_singleton] at hj
          subst hj
          exact hpr
      · intro j hj
        rcases List.mem_append.mp hj with hj | hj
        · exact List.mem_append_left _ (hqd j hj)
        · rw [List.mem_singleton] at hj
          subst hj
          exact List.mem_append_right _ (List.mem_singleton_self _)

theorem wqInv_get (q : WQueue) (h : WQInv q) : WQInv (wqGet q).2 := by
  obtain ⟨hq, hp, hqp, hqd⟩ := h
  unfold wqGet
  cases hqueue : q.queue with
  | nil => exact ⟨hq, hp, hqp, hqd⟩
  | cons x rest =>
      rw [hqueue] at hq hqp hqd
      have hxr : x ∉ rest := (List.nodup_cons.mp hq).1
      have hrest : rest.Nodup := (List.nodup_cons.mp hq).2
      have hxp : x ∉ q.processing := hqp x (List.mem_cons_self x rest)
      refine ⟨hrest, ?_, ?_, ?_⟩
      · refine List.Nodup.append hp (List.nodup_singleton x) ?_
        intro a ha hb
        rw [List.mem_singleton] at hb
        subst hb
        exact hxp ha
      · intro j hj hmem
        rcases List.mem_append.mp hmem with hm | hm
        · exact hqp j (List.mem_cons_of_mem x hj) hm
        · rw [List.mem_singleton] at hm
          subst hm
          exact hxr hj
      · intro j hj
        have hjd := hqd j (List.mem_cons_of_mem x hj)
        have hne : j ≠ x := fun hEq => hxr (hEq ▸ hj)
        exact (List.mem_erase_of_ne hne).mpr hjd

theorem wqInv_done (q : WQueue) (i : String) (h : WQInv q)
    (hi : i ∈ q.processing) : WQInv (wqDone q i) := by
  obtain ⟨hq, hp, hqp, hqd⟩ := h
  unfold wqDone
  have hiq : i ∉ q.queue := fun hmem => hqp i hmem hi
  by_cases hd : i ∈ q.dirty
  · simp only [hd, if_true]
    refine ⟨?_, hp.erase i, ?_, ?_⟩
    · refine List.Nodup.append hq (List.nodup_singleton i) ?_
      intro a ha hb
      rw [List.mem_singleton] at hb
      subst hb
      exact hiq ha
    · intro j hj hmem
      rcases List.mem_append.mp hj with hjq | hjq
      · exact hqp j hjq (List.mem_of_mem_erase hmem)
      · rw [List.mem_singleton] at hjq
        subst hjq
        exact ((List.Nodup.mem_erase_iff hp).mp hmem).1 rfl
    · intro j hj
      rcases List.mem_append.mp hj with hjq | hjq
      · exact hqd j hjq
      · rw [List.mem_singleton] at hjq
        subst hjq
        exact hd
  · simp only [hd, if_false]
    exact ⟨hq, hp.erase i,
      fun j hj hmem => hqp j hj (List.mem_of_mem_erase hmem), hqd⟩

theorem wqInv_reach (q : WQueue) (h : WReach q) : WQInv q := by
  induction h with
  | init => exact wqInv_init
  | add q i _ ih => exact wqInv_add q i ih
  | get q _ ih => exact wqInv_get q ih
  | done q i _ hi ih => exact wqInv_done q i ih hi

/-! ## Flush-loop lemma -/

theorem flushLoop_closed (now : Int) (body : List FlushEvent)
    (h : FlushEvent.closeCh ∉ body) (buf : List LogLine) :
    ∃ mids finalBuf,
      flushLoop now buf (body ++ [FlushEvent.closeCh]) =
        mids ++ [finalBuf ++ [⟨now, endOfPodLine⟩]] ∧
      (flushLoop now buf (body ++ [FlushEvent.closeCh])).flatten =
        buf ++ (linesOf body ++ [⟨now, endOfPodLine⟩]) := by
  induction body generalizing buf with
  | nil =>
      exact ⟨[], buf, by simp [flushLoop], by simp [flushLoop, linesOf]⟩
  | cons e rest ih =>
      have hrest : FlushEvent.closeCh ∉ rest := fun hm =>
        h (List.mem_cons_of_mem e hm)
      cases e with
      | line l =>
          by_cases hlen : initBufSize ≤ buf.length
          · obtain ⟨mids, fin, heq, hflat⟩ := ih hrest [l]
            refine ⟨buf :: mids, fin, ?_, ?_⟩
            · simp [flushLoop, hlen, heq]
            · simp [flushLoop, hlen, hflat, linesOf]
          · obtain ⟨mids, fin, heq, hflat⟩ := ih hrest (buf ++ [l])
            refine ⟨mids, fin, ?_, ?_⟩
            · simpa [flushLoop, hlen] using heq
            · simp only [List.cons_append, flushLoop, hlen, if_false,
                List.append_eq]
              rw [hflat]
              simp [linesOf]
      | tick =>
          by_cases hlen : buf.length = 0
          · obtain ⟨mids, fin, heq, hflat⟩ := ih hrest buf
            have hbuf : buf = [] := List.length_eq_zero.mp hlen
            refine ⟨mids, fin, ?_, ?_⟩
            · simpa [flushLoop, hlen] using heq
            · simp only [List.cons_append, flushLoop, hlen, if_true,
                List.append_eq]
              rw [hflat, hbuf]
              simp [linesOf]
          · obtain ⟨mids, fin, heq, hflat⟩ := ih hrest []
            refine ⟨buf :: mids, fin, ?_, ?_⟩
            · simp [flushLoop, hlen, heq]
            · simp only [List.cons_append, flushLoop, hlen, if_false,
                List.append_eq]
              simp only [List.flatten_cons]
              rw [hflat]
              simp [linesOf]
      | closeCh => exact absurd (List.mem_cons_self _ _) h

/-! ## SplitN lemmas -/

theorem takeWhile_append_stop (p : Char → Bool) (pre : List Char)
    (hpre : ∀ a ∈ pre, p a = true) (x : Char) (hx : p x = false)
    (post : List Char) : (pre ++ x :: post).takeWhile p = pre := by
  induction pre with
  | nil => simp [List.takeWhile, hx]
  | cons a rest ih =>
      have ha := hpre a (List.mem_cons_self a rest)
      simp only [List.cons_append, List.takeWhile_cons, ha, if_true]
      rw [ih (fun b hb => hpre b (List.mem_cons_of_mem a hb))]

theorem dropWhile_append_stop (p : Char → Bool) (pre : List Char)
    (hpre : ∀ a ∈ pre, p a = true) (x : Char) (hx : p x = false)
    (post : List Char) : (pre ++ x :: post).dropWhile p = x :: post := by
  induction pre with
  | nil => simp [List.dropWhile, hx]
  | cons a rest ih =>
      have ha := hpre a (List.mem_cons_self a rest)
      simp only [List.cons_append, List.dropWhile_cons, ha, if_true]
      exact ih (fun b hb => hpre b (List.mem_cons_of_mem a hb))

/-! ## Generator lemmas -/

theorem ite_error_ok {β : Type} (c : Prop) [Decidable c] (e : String)
    (x : Except String β) (y : β)
    (h : (if c then Except.error e else x) = Except.ok y) :
    x = Except.ok y := by
  by_cases hc : c
  · rw [if_pos hc] at h
    exact absurd h (by simp)
  · rwa [if_neg hc] at h

theorem generateConfigMap_ok {s : Script} {sfx : String} {s' : Script}
    {cm : ConfigMap} (h : s.generateConfigMap sfx = Except.ok (s', cm)) :
    cm.labels = smapInsert (smapInsert s.labels scriptNameLabelKey s.name)
        scriptExecutorLabelKey s.spec.executor ∧
    s'.labels = s.labels ∧ s'.name = s.name ∧ s'.ns = s.ns ∧
    s'.spec = s.spec ∧ s'.status.configmap = some cm := by
  unfold Script.generateConfigMap at h
  replace h := ite_error_ok _ _ _ _ h
  replace h := ite_error_ok _ _ _ _ h
  replace h := ite_error_ok _ _ _ _ h
  replace h := ite_error_ok _ _ _ _ h
  replace h := ite_error_ok _ _ _ _ h
  replace h := ite_error_ok _ _ _ _ h
  injection h with hpair
  obtain ⟨h1, h2⟩ := Prod.mk.inj hpair
  subst h1
  subst h2
  exact ⟨rfl, rfl, rfl, rfl, rfl, rfl⟩

theorem generateScript_ok {t : Task} {s1 c1 : String} {t' : Task}
    {sc : Script} (h : t.generateScript s1 c1 = Except.ok (t', sc)) :
    sc.labels = smapInsert t.labels taskNameLabelKey t.name ∧
    t'.name = t.name ∧ t'.ns = t.ns ∧ t'.labels = t.labels ∧
    t'.annotations = t.annotations ∧ t'.spec = t.spec ∧
    t'.status.script = some sc ∧ sc.status.configmap ≠ none := by
  unfold Task.generateScript at h
  split at h
  · exact absurd h (by simp)
  · cases heq : Script.generateConfigMap
      ⟨generateName2Name t.name s1, t.ns,
        smapInsert t.labels taskNameLabelKey t.name, t.annotations,
        ⟨t.spec.scriptSpec.content, t.spec.scriptSpec.executor⟩,
        ⟨none, false⟩⟩ c1 with
    | error e =>
        simp only [heq] at h
        exact absurd h (by simp)
    | ok pair =>
        obtain ⟨sc1, cmx⟩ := pair
        simp only [heq] at h
        injection h with hpair
        obtain ⟨h1, h2⟩ := Prod.mk.inj hpair
        subst h1
        subst h2
        have hg := generateConfigMap_ok heq
        refine ⟨?_, rfl, rfl, rfl, rfl, rfl, rfl, ?_⟩
        · rw [hg.2.1]
        · rw [hg.2.2.2.2.2]
          simp

theorem generateJob_ok {t : Task} {sfx : String} {t' : Task} {job : Job}
    (h : t.generateJob sfx = Except.ok (t', job)) :
    job.labels = smapInsert t.labels taskNameLabelKey t.name ∧
    job.annotations = (t.setContentToAnnot).annotations ∧
    job.status = JobStatus.zero := by
  unfold Task.generateJob at h
  split at h
  · exact absurd h (by simp)
  · cases hsc : t.status.script with
    | none =>
        simp only [hsc] at h
        exact absurd h (by simp)
    | some script =>
        cases hcm : script.status.configmap with
        | none =>
            simp only [hsc, hcm] at h
            exact absurd h (by simp)
        | some cm =>
            simp only [hsc, hcm] at h
            injection h with hpair
            obtain ⟨h1, h2⟩ := Prod.mk.inj hpair
            subst h1
            subst h2
            exact ⟨rfl, rfl, rfl⟩

/-! ## Cleanup lemmas -/

theorem cleanupJobs_cons_ok (j : Job) (rest : List Job) (c c' : Cluster)
    (h : deleteJob c j.ns j.name = Except.ok c') :
    cleanupJobs (j :: rest) c = cleanupJobs rest c' := by
  conv_lhs => unfold cleanupJobs
  rw [h]

theorem cleanupCMs_cons_ok (m : ConfigMap) (rest : List ConfigMap)
    (c c' : Cluster) (h : deleteConfigMap c m.ns m.name = Except.ok c') :
    cleanupCMs (m :: rest) c = cleanupCMs rest c' := by
  conv_lhs => unfold cleanupCMs
  rw [h]

theorem cleanupJobs_spec (L : List Job) (c : Cluster)
    (hmem : ∀ j ∈ L,
      c.jobs.any (fun x => x.ns == j.ns && x.name == j.name) = true)
    (hnodup : (L.map fun j => (j.ns, j.name)).Nodup) :
    cleanupJobs L c = (Except.ok (),
      { configMaps := c.configMaps,
        jobs := c.jobs.filter
          (fun x => !(L.any (fun j => x.ns == j.ns && x.name == j.name))),
        log := c.log ++ L.map (fun j => CEvent.delJob j.ns j.name) }) := by
  induction L generalizing c with
  | nil => simp [cleanupJobs]
  | cons j rest ih =>
      have hj := hmem j (List.mem_cons_self j rest)
      have hkey : (j.ns, j.name) ∉ rest.map fun j' => (j'.ns, j'.name) :=
        (List.nodup_cons.mp hnodup).1
      have hrestnodup : (rest.map fun j' => (j'.ns, j'.name)).Nodup :=
        (List.nodup_cons.mp hnodup).2
      have hdel : deleteJob c j.ns j.name = Except.ok
          { configMaps := c.configMaps,
            jobs := c.jobs.filter
              (fun x => !(x.ns == j.ns && x.name == j.name)),
            log := c.log ++ [CEvent.delJob j.ns j.name] } := by
        unfold deleteJob
        rw [if_pos hj]
      have hmem2 : ∀ j' ∈ rest,
          (c.jobs.filter
            (fun x => !(x.ns == j.ns && x.name == j.name))).any
            (fun x => x.ns == j'.ns && x.name == j'.name) = true := by
        intro j' hj'
        obtain ⟨x, hx, hxn⟩ := List.any_eq_true.mp (hmem j'
          (List.mem_cons_of_mem j hj'))
        refine List.any_eq_true.mpr ⟨x, List.mem_filter.mpr ⟨hx, ?_⟩, hxn⟩
        by_cases hcl : (x.ns == j.ns && x.name == j.name) = true
        · exfalso
          rw [Bool.and_eq_true] at hxn hcl
          obtain ⟨hxn1, hxn2⟩ := hxn
          obtain ⟨hc1, hc2⟩ := hcl
          apply hkey
          have hpair : (j.ns, j.name) = (j'.ns, j'.name) := by
            rw [← eq_of_beq hc1, ← eq_of_beq hc2,
              eq_of_beq hxn1, eq_of_beq hxn2]
          rw [hpair]
          exact List.mem_map_of_mem _ hj'
        · simp only [Bool.not_eq_true] at hcl
          simp [hcl]
      rw [cleanupJobs_cons_ok _ _ _ _ hdel, ih _ hmem2 hrestnodup]
      simp only [Prod.mk.injEq, Cluster.mk.injEq, true_and]
      refine ⟨?_, ?_⟩
      · rw [List.filter_filter]
        apply List.filter_congr
        intro x hx
        simp [List.any_cons, Bool.not_or, Bool.and_comm]
      · simp

theorem cleanupCMs_spec (L : List ConfigMap) (c : Cluster)
    (hmem : ∀ m ∈ L,
      c.configMaps.any (fun x => x.ns == m.ns && x.name == m.name) = true)
    (hnodup : (L.map fun m => (m.ns, m.name)).Nodup) :
    cleanupCMs L c = (Except.ok (),
      { configMaps := c.configMaps.filter
          (fun x => !(L.any (fun m => x.ns == m.ns && x.name == m.name))),
        jobs := c.jobs,
        log := c.log ++ L.map (fun m => CEvent.delCM m.ns m.name) }) := by
  induction L generalizing c with
  | nil => simp [cleanupCMs]
  | cons m rest ih =>
      have hm := hmem m (List.mem_cons_self m rest)
      have hkey : (m.ns, m.name) ∉ rest.map fun m' => (m'.ns, m'.name) :=
        (List.nodup_cons.mp hnodup).1
      have hrestnodup : (rest.map fun m' => (m'.ns, m'.name)).Nodup :=
        (List.nodup_cons.mp hnodup).2
      have hdel : deleteConfigMap c m.ns m.name = Except.ok
          { configMaps := c.configMaps.filter
              (fun x => !(x.ns == m.ns && x.name == m.name)),
            jobs := c.jobs,
            log := c.log ++ [CEvent.delCM m.ns m.name] } := by
        unfold deleteConfigMap
        rw [if_pos hm]
      have hmem2 : ∀ m' ∈ rest,
          (c.configMaps.filter
            (fun x => !(x.ns == m.ns && x.name == m.name))).any
            (fun x => x.ns == m'.ns && x.name == m'.name) = true := by
        intro m' hm'
        obtain ⟨x, hx, hxn⟩ := List.any_eq_true.mp (hmem m'
          (List.mem_cons_of_mem m hm'))
        refine List.any_eq_true.mpr ⟨x, List.mem_filter.mpr ⟨hx, ?_⟩, hxn⟩
        by_cases hcl : (x.ns == m.ns && x.name == m.name) = true
        · exfalso
          rw [Bool.and_eq_true] at hxn hcl
          obtain ⟨hxn1, hxn2⟩ := hxn
          obtain ⟨hc1, hc2⟩ := hcl
          apply hkey
          have hpair : (m.ns, m.name) = (m'.ns, m'.name) := by
            rw [← eq_of_beq hc1, ← eq_of_beq hc2,
              eq_of_beq hxn1, eq_of_beq hxn2]
          rw [hpair]
          exact List.mem_map_of_mem _ hm'
        · simp only [Bool.not_eq_true] at hcl
          simp [hcl]
      rw [cleanupCMs_cons_ok _ _ _ _ hdel, ih _ hmem2 hrestnodup]
      simp only [Prod.mk.injEq, Cluster.mk.injEq, true_and]
      refine ⟨?_, ?_⟩
      · rw [List.filter_filter]
        apply List.filter_congr
        intro x hx
        simp [List.any_cons, Bool.not_or, Bool.and_comm]
      · simp

theorem cleanupTask_run (c : Cluster) (task : Task) (hwf : clusterWF c) :
    cleanupTask c task = (Except.ok (),
      { configMaps := c.configMaps.filter (fun x => !(x.ns == task.ns &&
          smapSub (smapInsert managerLabelsDefault taskNameLabelKey
            task.name) x.labels)),
        jobs := c.jobs.filter (fun x => !(x.ns == task.ns &&
          smapSub (smapInsert managerLabelsDefault taskNameLabelKey
            task.name) x.labels)),
        log := (c.log ++
          (listJob c task.ns (smapInsert managerLabelsDefault
            taskNameLabelKey task.name)).map
            (fun j => CEvent.delJob j.ns j.name)) ++
          (listConfigMap c task.ns (smapInsert managerLabelsDefault
            taskNameLabelKey task.name)).map
            (fun m => CEvent.delCM m.ns m.name) }) := by
  have hmemJ : ∀ j ∈ listJob c task.ns
      (smapInsert managerLabelsDefault taskNameLabelKey task.name),
      c.jobs.any (fun x => x.ns == j.ns && x.name == j.name) = true := by
    intro j hj
    exact List.any_eq_true.mpr
      ⟨j, (List.mem_filter.mp hj).1, by simp⟩
  have hndJ : ((listJob c task.ns
      (smapInsert managerLabelsDefault taskNameLabelKey task.name)).map
      fun j => (j.ns, j.name)).Nodup :=
    hwf.1.sublist ((List.filter_sublist _).map _)
  have hcj := cleanupJobs_spec _ c hmemJ hndJ
  have hmemC : ∀ m ∈ listConfigMap c task.ns
      (smapInsert managerLabelsDefault taskNameLabelKey task.name),
      c.configMaps.any (fun x => x.ns == m.ns && x.name == m.name) =
        true := by
    intro m hm
    exact List.any_eq_true.mpr
      ⟨m, (List.mem_filter.mp hm).1, by simp⟩
  have hndC : ((listConfigMap c task.ns
      (smapInsert managerLabelsDefault taskNameLabelKey task.name)).map
      fun m => (m.ns, m.name)).Nodup :=
    hwf.2.sublist ((List.filter_sublist _).map _)
  have hlc : listConfigMap
      { configMaps := c.configMaps,
        jobs := c.jobs.filter (fun x => !((listJob c task.ns
          (smapInsert managerLabelsDefault taskNameLabelKey
            task.name)).any (fun j => x.ns == j.ns && x.name == j.name))),
        log := c.log ++ (listJob c task.ns (smapInsert managerLabelsDefault
          taskNameLabelKey task.name)).map
          (fun j => CEvent.delJob j.ns j.name) }
      task.ns (smapInsert managerLabelsDefault taskNameLabelKey task.name) =
      listConfigMap c task.ns
        (smapInsert managerLabelsDefault taskNameLabelKey task.name) := rfl
  have hcc := cleanupCMs_spec (listConfigMap c task.ns
    (smapInsert managerLabelsDefault taskNameLabelKey task.name))
    { configMaps := c.configMaps,
      jobs := c.jobs.filter (fun x => !((listJob c task.ns
        (smapInsert managerLabelsDefault taskNameLabelKey
          task.name)).any (fun j => x.ns == j.ns && x.name == j.name))),
      log := c.log ++ (listJob c task.ns (smapInsert managerLabelsDefault
        taskNameLabelKey task.name)).map
        (fun j => CEvent.delJob j.ns j.name) }
    hmemC hndC
  have hjobs : c.jobs.filter (fun x => !((listJob c task.ns
      (smapInsert managerLabelsDefault taskNameLabelKey task.name)).any
      (fun j => x.ns == j.ns && x.name == j.name))) =
      c.jobs.filter (fun x => !(x.ns == task.ns &&
        smapSub (smapInsert managerLabelsDefault taskNameLabelKey
          task.name) x.labels)) := by
    apply List.filter_congr
    intro x hx
    by_cases hp : (x.ns == task.ns && smapSub (smapInsert
        managerLabelsDefault taskNameLabelKey task.name) x.labels) = true
    · have hxl : x ∈ listJob c task.ns
          (smapInsert managerLabelsDefault taskNameLabelKey task.name) :=
        List.mem_filter.mpr ⟨hx, hp⟩
      have hany : (listJob c task.ns (smapInsert managerLabelsDefault
          taskNameLabelKey task.name)).any
          (fun j => x.ns == j.ns && x.name == j.name) = true :=
        List.any_eq_true.mpr ⟨x, hxl, by simp⟩
      rw [hany, hp]
    · have hany : (listJob c task.ns (smapInsert managerLabelsDefault
          taskNameLabelKey task.name)).any
          (fun j => x.ns == j.ns && x.name == j.name) = false := by
        rw [Bool.eq_false_iff]
        intro hany
        obtain ⟨j, hjL, hjx⟩ := List.any_eq_true.mp hany
        rw [Bool.and_eq_true] at hjx
        have hje : j = x := List.inj_on_of_nodup_map hwf.1
          ((List.mem_filter.mp hjL).1) hx
          (by rw [eq_of_beq hjx.1, eq_of_beq hjx.2])
        exact hp (hje ▸ (List.mem_filter.mp hjL).2)
      rw [hany, Bool.eq_false_iff.mpr hp]
  have hcms : c.configMaps.filter (fun x => !((listConfigMap c task.ns
      (smapInsert managerLabelsDefault taskNameLabelKey task.name)).any
      (fun m => x.ns == m.ns && x.name == m.name))) =
      c.configMaps.filter (fun x => !(x.ns == task.ns &&
        smapSub (smapInsert managerLabelsDefault taskNameLabelKey
          task.name) x.labels)) := by
    apply List.filter_congr
    intro x hx
    by_cases hp : (x.ns == task.ns && smapSub (smapInsert
        managerLabelsDefault taskNameLabelKey task.name) x.labels) = true
    · have hxl : x ∈ listConfigMap c task.ns
          (smapInsert managerLabelsDefault taskNameLabelKey task.name) :=
        List.mem_filter.mpr ⟨hx, hp⟩
      have hany : (listConfigMap c task.ns (smapInsert managerLabelsDefault
          taskNameLabelKey task.name)).any
          (fun m => x.ns == m.ns && x.name == m.name) = true :=
        List.any_eq_true.mpr ⟨x, hxl, by simp⟩
      rw [hany, hp]
    · have hany : (listConfigMap c task.ns (smapInsert managerLabelsDefault
          taskNameLabelKey task.name)).any
          (fun m => x.ns == m.ns && x.name == m.name) = false := by
        rw [Bool.eq_false_iff]
        intro hany
        obtain ⟨m, hmL, hmx⟩ := List.any_eq_true.mp hany
        rw [Bool.and_eq_true] at hmx
        have hme : m = x := List.inj_on_of_nodup_map hwf.2
          ((List.mem_filter.mp hmL).1) hx
          (by rw [eq_of_beq hmx.1, eq_of_beq hmx.2])
        exact hp (hme ▸ (List.mem_filter.mp hmL).2)
      rw [hany, Bool.eq_false_iff.mpr hp]
  simp only [cleanupTask, hcj, hlc, hcc]
  simp only [Prod.mk.injEq, Cluster.mk.injEq, true_and]
  exact ⟨hcms, hjobs, trivial⟩

/-! ## Claim theorems -/

/-- C2: on a callback error with requeue count below 5 the key is
re-enqueued rate-limited; at 5 the backoff history is forgotten, the key
dropped and the error reported; an always-erroring callback is invoked 6
times (the initial attempt plus exactly 5 retries), then dropped and
reported exactly once; a nil error forgets the backoff history
immediately. -/
theorem controller_retry_ceiling :
    (∀ n, handleErr false n = RetryAction.forget) ∧
    (∀ n, n < 5 → handleErr true n = RetryAction.addRateLimited) ∧
    (∀ n, 5 ≤ n → handleErr true n = RetryAction.dropAndReport) ∧
    alwaysFailingTrace = (6, 5, 1) := by
  refine ⟨fun n => by simp [handleErr], fun n hlt => by simp [handleErr, hlt],
    fun n hge => by simp [handleErr, Nat.not_lt.mpr hge], by decide⟩

/-- Witness for C2 at requeue counts 3 and 7. -/
theorem controller_retry_ceiling_witness :
    handleErr true 3 = RetryAction.addRateLimited ∧
    handleErr true 7 = RetryAction.dropAndReport :=
  ⟨controller_retry_ceiling.2.1 3 (by decide),
    controller_retry_ceiling.2.2.1 7 (by decide)⟩

/-- C9: in every queue state reachable under the controller's discipline
(`Get` to take a key, `Done` on the held key), no key is held by two
workers at once — a second `Add` of an in-flight key only marks it dirty,
so at most one worker is in flight per distinct key. -/
theorem workqueue_at_most_one_in_flight (q : WQueue) (h : WReach q)
    (item : String) : q.processing.count item ≤ 1 :=
  List.nodup_iff_count_le_one.mp (wqInv_reach q h).2.1 item

/-- Witness for C9: the state after enqueueing and taking the key `k`. -/
theorem workqueue_at_most_one_in_flight_witness :
    (wqGet (wqAdd ⟨[], [], []⟩ "k")).2.processing.count "k" ≤ 1 :=
  workqueue_at_most_one_in_flight _
    (WReach.get _ (WReach.add _ "k" WReach.init)) "k"

/-- C6: whatever the interleaving of ticker fires with the lines read from
the log channel, once the channel closes the delivered batches concatenate
to the sent lines in order followed by the end-of-stream sentinel, and
the final forced flush is the batch ending in the sentinel. -/
theorem log_pipeline_completeness (now : Int) (body : List FlushEvent)
    (h : FlushEvent.closeCh ∉ body) :
    ∃ mids finalBuf,
      flushLoop now [] (body ++ [FlushEvent.closeCh]) =
        mids ++ [finalBuf ++ [⟨now, endOfPodLine⟩]] ∧
      (flushLoop now [] (body ++ [FlushEvent.closeCh])).flatten =
        linesOf body ++ [⟨now, endOfPodLine⟩] := by
  simpa using flushLoop_closed now body h []

/-- Witness for C6: 150 lines, more than the 100-line buffer capacity. -/
theorem log_pipeline_completeness_witness :
    FlushEvent.closeCh ∉ exFlushBody ∧
    ∃ mids finalBuf,
      flushLoop 1 [] (exFlushBody ++ [FlushEvent.closeCh]) =
        mids ++ [finalBuf ++ [⟨1, endOfPodLine⟩]] ∧
      (flushLoop 1 [] (exFlushBody ++ [FlushEvent.closeCh])).flatten =
        linesOf exFlushBody ++ [⟨1, endOfPodLine⟩] :=
  ⟨by simp [exFlushBody], log_pipeline_completeness 1 exFlushBody
    (by simp [exFlushBody])⟩

/-- C7 counterexample: the claim asserts that processing any line —
including one containing no space at all — completes without panicking and
sends one LogLine.  On the line `"foo\n"`, `strings.SplitN` yields a single
element, so the source's `lst[1]` indexes out of range and panics; the
model returns `none` (no LogLine is produced) instead of `some`. -/
theorem getOrTailLogs_no_space_counterexample :
    processLogLine (fun _ => none) "foo\n" = none := by decide

/-- C7 (amended): for every line that contains at least one space, the line
is split at the first space, a malformed timestamp fails open — the parsed
timestamp is the zero value while the message (everything after the first
space) is preserved — and exactly one LogLine is produced; a line with no
space at all makes the source panic with an index-out-of-range instead. -/
theorem getOrTailLogs_fail_open (parseTime : String → Option Int)
    (pre post : List Char) (hpre : ' ' ∉ pre) :
    processLogLine parseTime ⟨pre ++ ' ' :: post⟩ =
      some ⟨(parseTime ⟨pre⟩).getD 0, ⟨post⟩⟩ := by
  have hmem : ' ' ∈ pre ++ ' ' :: post := by simp
  have htake := takeWhile_append_stop (fun c => !(c == ' ')) pre
    (fun a ha => by
      simp only [Bool.not_eq_true']
      exact beq_false_of_ne (fun hEq => hpre (hEq ▸ ha)))
    ' ' (by simp) post
  have hdrop := dropWhile_append_stop (fun c => !(c == ' ')) pre
    (fun a ha => by
      simp only [Bool.not_eq_true']
      exact beq_false_of_ne (fun hEq => hpre (hEq ▸ ha)))
    ' ' (by simp) post
  simp only [processLogLine, splitN2, hmem, if_true, htake, hdrop,
    List.tail_cons]

/-- Witness for C7 (amended) on the line `"x y\n"`. -/
theorem getOrTailLogs_fail_open_witness :
    (' ' ∉ ['x']) ∧
    processLogLine (fun _ => none) ⟨['x'] ++ ' ' :: ['y', '\n']⟩ =
      some ⟨0, ⟨['y', '\n']⟩⟩ :=
  ⟨by decide,
    getOrTailLogs_fail_open (fun _ => none) ['x'] ['y', '\n'] (by decide)⟩

/-- C1 (code bug): `onJobAddedUpdated`'s no-op guard compares the old
job's Failed counter against the new job's *Succeeded* counter
(manager.go line 377), so delivering the very same job snapshot twice —
here with Succeeded = 1, Failed = 0, no conditions — invokes the
`OnStatusUpdate` callback both times: one call after the first delivery,
two calls after the second, even though the tracked old job is identical
to the newly observed one.  The claim (identical statuses are skipped, at
most one callback for a repeated snapshot) matches the code's own comment
but not its behavior. -/
theorem onJobAddedUpdated_noop_detection_broken :
    (onJobAddedUpdated ⟨[], []⟩ exKey exJob).2.calls.length = 1 ∧
    alistGet (onJobAddedUpdated ⟨[], []⟩ exKey exJob).2.jobTracker exKey =
      some exJob ∧
    (onJobAddedUpdated (onJobAddedUpdated ⟨[], []⟩ exKey exJob).2
        exKey exJob).2.calls.length = 2 := by
  refine ⟨rfl, ?_, rfl⟩
  decide

/-- C10 (code bug): the first two parts of the claim hold of
`Parameter.Validate` itself — the key `x` without a leading dash is
rejected, a key of 31 dash-prefixed characters with a non-empty value
passes, a 32-character key is rejected, an empty value is rejected, and an
empty Parameters list passes — but the claim's consequence is false of the
program: `validate.Validate(t.Spec)` inside `Task.Validate` passes a
`TaskSpec` value whose method set lacks the pointer-receiver
`TaskSpec.Validate`, so the parameter checks never run on `RunTask`'s
path.  `runTask` on the task carrying the invalid parameter key `x`
succeeds, keeps the task stored and appends two creation events (its
configmap and its job) to the cluster log, instead of rejecting it before
any cluster mutation. -/
theorem parameter_validation_not_enforced :
    Parameter.validate ⟨"x", "1"⟩ =
      some "invalid parameter name, must match pattern" ∧
    Parameter.validate ⟨"-678901234567890123456789012345", "1"⟩ = none ∧
    Parameter.validate ⟨"-6789012345678901234567890123456", "1"⟩ =
      some "invalid parameter name, length must be between 1 and 32" ∧
    Parameter.validate ⟨"-v", ""⟩ =
      some "invalid parameter value, must not be empty" ∧
    parametersValidate [] = none ∧
    badParamTask.spec.parameters = some [⟨"x", "1"⟩] ∧
    parametersValidate [⟨"x", "1"⟩] =
      some "invalid parameter name, must match pattern" ∧
    (runTask exEnv exS0 badParamTask).1 = Except.ok () ∧
    (runTask exEnv exS0 badParamTask).2.taskTracker.length = 1 ∧
    (runTask exEnv exS0 badParamTask).2.cluster.log.length = 2 ∧
    (runTask exEnv exS0 badParamTask).2.cluster.configMaps.length = 1 ∧
    (runTask exEnv exS0 badParamTask).2.cluster.jobs.length = 1 := by
  refine ⟨by decide, by decide, by decide, by decide, rfl, rfl, by decide,
    rfl, ?_, ?_, ?_, ?_⟩ <;> decide

/-- C4: whenever `runTask` returns without error, exactly one configmap
and exactly one job have been created — the run appends exactly the two
creation events to the cluster log, the configmap first — and both carry
the task-name correlation label set to the task's name. -/
theorem runTask_creates_one_script_one_job (env : RunEnv) (s : MState)
    (task : Task) (hok : (runTask env s task).1 = Except.ok ()) :
    ∃ cm job,
      (runTask env s task).2.cluster.log =
        s.cluster.log ++ [CEvent.createCM cm, CEvent.createJob job] ∧
      smapGet cm.labels taskNameLabelKey = some task.name ∧
      smapGet job.labels taskNameLabelKey = some task.name := by
  cases hv : task.validate with
  | some e0 => simp [runTask, hv] at hok
  | none =>
  simp only [runTask, hv] at hok ⊢
  cases hgen : Task.generateScript (task.setLabels managerLabelsDefault)
      env.scriptSfx env.scriptCmSfx with
  | error e1 => simp [hgen] at hok
  | ok pair =>
      obtain ⟨t1, sc⟩ := pair
      simp only [hgen] at hok ⊢
      cases hcm : sc.generateConfigMap env.cmSfx with
      | error e2 => simp [hcm] at hok
      | ok pair2 =>
          obtain ⟨sc2, cm⟩ := pair2
          simp only [hcm] at hok ⊢
          cases hcmok : env.cmCreateOk with
          | false =>
              simp only [hcmok, Bool.false_eq_true, not_false_iff,
                if_true] at hok
              exact absurd hok (by simp)
          | true =>
              simp only [hcmok, not_true, if_false] at hok ⊢
              cases hjob : (Task.generateJob
                  ({ t1 with status := { t1.status with
                    script := some ({ sc2 with status := ⟨some cm, true⟩ }) } })
                  env.jobSfx) with
              | error e3 =>
                  simp only [hjob] at hok
                  exact absurd hok (by simp)
              | ok pair3 =>
                  obtain ⟨t2, job⟩ := pair3
                  simp only [hjob] at hok ⊢
                  cases hjobok : env.jobCreateOk with
                  | false =>
                      simp only [hjobok, Bool.false_eq_true, not_false_iff,
                        if_true] at hok
                      exact absurd hok (by simp)
                  | true =>
                      simp only [hjobok, not_true, if_false]
                      refine ⟨cm, job, ?_, ?_, ?_⟩
                      · simp [createConfigMap, createJob, List.append_assoc]
                      · have hgc := generateConfigMap_ok hcm
                        have hgs := generateScript_ok hgen
                        rw [hgc.1, hgs.1]
                        rw [smapGet_insert_ne _ _ _ _ (by decide),
                          smapGet_insert_ne _ _ _ _ (by decide),
                          smapGet_insert_self]
                        rfl
                      · have hgj := generateJob_ok hjob
                        have hgs := generateScript_ok hgen
                        rw [hgj.1]
                        have hname : t1.name = task.name := hgs.2.1
                        rw [smapGet_insert_self, hname]

/-- Witness for C4: the successful run of `exTask`. -/
theorem runTask_creates_one_script_one_job_witness :
    (runTask exEnv exS0 exTask).1 = Except.ok () ∧
    ∃ cm job,
      (runTask exEnv exS0 exTask).2.cluster.log =
        exS0.cluster.log ++ [CEvent.createCM cm, CEvent.createJob job] ∧
      smapGet cm.labels taskNameLabelKey = some exTask.name ∧
      smapGet job.labels taskNameLabelKey = some exTask.name :=
  ⟨rfl, runTask_creates_one_script_one_job exEnv exS0 exTask rfl⟩

/-- C5: for every task, the job built by `GenerateJob` (after
`GenerateScript`) embeds the serialized task in its content annotation
via `SetContentToAnnotation`, and `Job2Task` applied to that job alone —
no external storage — reconstructs the task's name, namespace and full
spec. -/
theorem task_annotation_roundtrip (task t1 t2 : Task) (sc : Script)
    (job : Job) (s1 c1 s2 : String)
    (h1 : task.generateScript s1 c1 = Except.ok (t1, sc))
    (h2 : t1.generateJob s2 = Except.ok (t2, job)) :
    ∃ t', job2Task job = Except.ok t' ∧
      t'.name = task.name ∧ t'.ns = task.ns ∧ t'.spec = task.spec := by
  have hgs := generateScript_ok h1
  have hgj := generateJob_ok h2
  obtain ⟨hlab, hannJ, hstat⟩ := hgj
  unfold Task.setContentToAnnot at hannJ
  unfold job2Task
  rw [hannJ]
  rw [if_neg (fun h0 => smapInsert_ne_nil _ _ _ (List.length_eq_zero.mp h0))]
  simp only [smapGet_insert_self, Option.getD_some]
  rw [if_neg (marshalTask_ne_empty _)]
  rw [unmarshalTask_marshalTask]
  simp only [hstat]
  exact ⟨_, rfl, hgs.2.1, hgs.2.2.1, hgs.2.2.2.2.2.1⟩

/-- Witness for C5: `exTask`'s generated job round-trips. -/
theorem task_annotation_roundtrip_witness :
    exTask.generateScript "a" "b" = Except.ok (exT1, exSc) ∧
    exT1.generateJob "e" = Except.ok (exT2, exJobPlain) ∧
    ∃ t', job2Task exJobPlain = Except.ok t' ∧
      t'.name = exTask.name ∧ t'.ns = exTask.ns ∧ t'.spec = exTask.spec :=
  ⟨rfl, rfl,
    task_annotation_roundtrip exTask exT1 exT2 exSc exJobPlain "a" "b" "e"
      rfl rfl⟩

/-- C8: on a well-formed cluster (names unique per kind and namespace,
the Kubernetes invariant), `CleanupTask` succeeds, deletes every job and
configmap carrying the manager label and the task's correlation label,
and a second call with no objects recreated in between also returns nil
while performing no deletions at all — the cluster state, log included,
is exactly the state after the first call. -/
theorem cleanupTask_idempotent (c : Cluster) (task : Task)
    (hwf : clusterWF c) :
    ∃ c', cleanupTask c task = (Except.ok (), c') ∧
      listJob c' task.ns
        (smapInsert managerLabelsDefault taskNameLabelKey task.name) = [] ∧
      listConfigMap c' task.ns
        (smapInsert managerLabelsDefault taskNameLabelKey task.name) = [] ∧
      cleanupTask c' task = (Except.ok (), c') := by
  refine ⟨_, cleanupTask_run c task hwf, ?_, ?_, ?_⟩
  · simp only [listJob]
    rw [List.filter_filter]
    apply List.filter_eq_nil_iff.mpr
    intro a ha
    cases hP : (a.ns == task.ns && smapSub (smapInsert managerLabelsDefault
      taskNameLabelKey task.name) a.labels) <;> simp [hP]
  · simp only [listConfigMap]
    rw [List.filter_filter]
    apply List.filter_eq_nil_iff.mpr
    intro a ha
    cases hP : (a.ns == task.ns && smapSub (smapInsert managerLabelsDefault
      taskNameLabelKey task.name) a.labels) <;> simp [hP]
  · have hwf2 : clusterWF
        { configMaps := c.configMaps.filter (fun x => !(x.ns == task.ns &&
            smapSub (smapInsert managerLabelsDefault taskNameLabelKey
              task.name) x.labels)),
          jobs := c.jobs.filter (fun x => !(x.ns == task.ns &&
            smapSub (smapInsert managerLabelsDefault taskNameLabelKey
              task.name) x.labels)),
          log := (c.log ++
            (listJob c task.ns (smapInsert managerLabelsDefault
              taskNameLabelKey task.name)).map
              (fun j => CEvent.delJob j.ns j.name)) ++
            (listConfigMap c task.ns (smapInsert managerLabelsDefault
              taskNameLabelKey task.name)).map
              (fun m => CEvent.delCM m.ns m.name) } :=
      ⟨hwf.1.sublist ((List.filter_sublist _).map _),
        hwf.2.sublist ((List.filter_sublist _).map _)⟩
    rw [cleanupTask_run _ task hwf2]
    simp only [Prod.mk.injEq, Cluster.mk.injEq, true_and]
    refine ⟨?_, ?_, ?_⟩
    · rw [List.filter_filter]
      apply List.filter_congr
      intro x hx
      cases hP : (x.ns == task.ns && smapSub (smapInsert
        managerLabelsDefault taskNameLabelKey task.name) x.labels) <;>
        simp [hP]
    · rw [List.filter_filter]
      apply List.filter_congr
      intro x hx
      cases hP : (x.ns == task.ns && smapSub (smapInsert
        managerLabelsDefault taskNameLabelKey task.name) x.labels) <;>
        simp [hP]
    · have hJ : listJob
          { configMaps := c.configMaps.filter (fun x => !(x.ns == task.ns &&
              smapSub (smapInsert managerLabelsDefault taskNameLabelKey
                task.name) x.labels)),
            jobs := c.jobs.filter (fun x => !(x.ns == task.ns &&
              smapSub (smapInsert managerLabelsDefault taskNameLabelKey
                task.name) x.labels)),
            log := (c.log ++
              (listJob c task.ns (smapInsert managerLabelsDefault
                taskNameLabelKey task.name)).map
                (fun j => CEvent.delJob j.ns j.name)) ++
              (listConfigMap c task.ns (smapInsert managerLabelsDefault
                taskNameLabelKey task.name)).map
                (fun m => CEvent.delCM m.ns m.name) }
          task.ns (smapInsert managerLabelsDefault taskNameLabelKey
            task.name) = [] := by
        simp only [listJob]
        rw [List.filter_filter]
        apply List.filter_eq_nil_iff.mpr
        intro a ha
        cases hP : (a.ns == task.ns && smapSub (smapInsert
          managerLabelsDefault taskNameLabelKey task.name) a.labels) <;>
          simp [hP]
      have hC : listConfigMap
          { configMaps := c.configMaps.filter (fun x => !(x.ns == task.ns &&
              smapSub (smapInsert managerLabelsDefault taskNameLabelKey
                task.name) x.labels)),
            jobs := c.jobs.filter (fun x => !(x.ns == task.ns &&
              smapSub (smapInsert managerLabelsDefault taskNameLabelKey
                task.name) x.labels)),
            log := (c.log ++
              (listJob c task.ns (smapInsert managerLabelsDefault
                taskNameLabelKey task.name)).map
                (fun j => CEvent.delJob j.ns j.name)) ++
              (listConfigMap c task.ns (smapInsert managerLabelsDefault
                taskNameLabelKey task.name)).map
                (fun m => CEvent.delCM m.ns m.name) }
          task.ns (smapInsert managerLabelsDefault taskNameLabelKey
            task.name) = [] := by
        simp only [listConfigMap]
        rw [List.filter_filter]
        apply List.filter_eq_nil_iff.mpr
        intro a ha
        cases hP : (a.ns == task.ns && smapSub (smapInsert
          managerLabelsDefault taskNameLabelKey task.name) a.labels) <;>
          simp [hP]
      rw [hJ, hC]
      simp

/-- Witness for C8: the cluster right after `runTask` of `exTask`. -/
theorem cleanupTask_idempotent_witness :
    clusterWF exCluster ∧
    (∃ c', cleanupTask exCluster exTask = (Except.ok (), c') ∧
      listJob c' exTask.ns
        (smapInsert managerLabelsDefault taskNameLabelKey exTask.name) =
        [] ∧
      listConfigMap c' exTask.ns
        (smapInsert managerLabelsDefault taskNameLabelKey exTask.name) =
        [] ∧
      cleanupTask c' exTask = (Except.ok (), c')) :=
  ⟨by unfold clusterWF; decide,
    cleanupTask_idempotent exCluster exTask (by unfold clusterWF; decide)⟩

end K8sUtils
